import Mathlib

/-!
Verification development for the ottoscalr recommendation engine
(`pkg/reco`: `reco.go`, `workflow.go`, `policyiterators.go`).

Shallow embedding conventions:
* Go `float64` values (CPU quantities, times, durations, ratios) are modelled
  as exact rationals `ℚ`; `math.Ceil`/`math.Floor` become `Int.ceil`/`Int.floor`.
* Go `int` is `ℤ`; Go integer division truncates toward zero, which is
  `Int.tdiv` (not Lean's `/` on `ℤ`, which is Euclidean).
* Go `time.Time` and `time.Duration` are rationals (seconds); `t.Add(d)` is
  `t + d` and `t1.Before(t2)` is `t1 < t2`.
* nil-able pointers become `Option`; fallible calls return `Except`/`Option`.
* External collaborators (scraper, client registry, policy store, metrics
  transformers) are passed in as their results, so the pure control flow of
  the source is what is embedded.
-/

/-- `metrics.DataPoint`: one sample of aggregate CPU usage. -/
structure DataPoint where
  timestamp : ℚ
  value : ℚ
deriving DecidableEq

/-- `reco.TimerEvent`: a pending supply increment that fires at `timestamp`. -/
structure TimerEvent where
  timestamp : ℚ
  delta : ℚ
deriving DecidableEq

/-- `v1alpha1.HPAConfiguration`. -/
structure HPAConfiguration where
  Min : ℤ
  Max : ℤ
  TargetMetricValue : ℤ
deriving DecidableEq

/-- `reco.Policy` (policyiterators.go): the workflow-level policy value.
`RiskIndex` is a Go `string`, compared lexicographically. -/
structure Policy where
  Name : String
  RiskIndex : String
  MinReplicaPercentageCut : ℤ
  TargetUtilization : ℤ
deriving DecidableEq

/-- Spec part of the `v1alpha1.Policy` custom resource. -/
structure PolicyCRSpec where
  RiskIndex : String
  MinReplicaPercentageCut : ℤ
  TargetUtilization : ℤ
deriving DecidableEq

/-- The `v1alpha1.Policy` custom resource (name + spec). -/
structure PolicyCR where
  Name : String
  Spec : PolicyCRSpec
deriving DecidableEq

/-- Go's zero value for `v1alpha1.Policy`. -/
def zeroPolicyCR : PolicyCR := ⟨"", ⟨"", 0, 0⟩⟩

/-- `reco.PolicyFromCR` (policyiterators.go). -/
def PolicyFromCR (p : PolicyCR) : Policy :=
  ⟨p.Name, p.Spec.RiskIndex, p.Spec.MinReplicaPercentageCut, p.Spec.TargetUtilization⟩

/-- Go conversion `int(f)` of a `float64`: truncation toward zero. -/
def goFloatToInt (q : ℚ) : ℤ := if q < 0 then ⌈q⌉ else ⌊q⌋

/-- Go integer division: truncation toward zero. -/
def goIntDiv (a b : ℤ) : ℤ := Int.tdiv a b

/-- The inflated target `int(math.Floor(float64(targetUtilization) * 1.1))`
computed at the top of `simulateHPA` (reco.go line 176). -/
def effectiveTarget (targetUtilization : ℤ) : ℤ :=
  ⌊(targetUtilization : ℚ) * 1.1⌋

/-- The unclamped replica demand
`math.Ceil((100*dp.Value)/float64(targetUtilization)/perPodResources)`
used in `simulateHPA` (reco.go lines 188-189, 206-207; the first data point
writes the product as `dp.Value*100`, which is the same rational). -/
def rawReplicas (target : ℤ) (perPodResources : ℚ) (v : ℚ) : ℚ :=
  ((⌈100 * v / (target : ℚ) / perPodResources⌉ : ℤ) : ℚ)

/-- The clamped replica count
`math.Min(float64(maxReplicas), math.Max(float64(minReplicas), math.Ceil(...)))`. -/
def clampedReplicas (target : ℤ) (perPodResources : ℚ) (maxReplicas minReplicas : ℤ)
    (v : ℚ) : ℚ :=
  min (maxReplicas : ℚ) (max (minReplicas : ℚ) (rawReplicas target perPodResources v))

/-- The timer-consumption loop at the top of the `simulateHPA` iteration
(reco.go lines 202-205): drain every timer whose timestamp is not after `ts`,
adding its delta to the ready resources. -/
def consumeTimers (ts : ℚ) (ready : ℚ) : List TimerEvent → ℚ × List TimerEvent
  | [] => (ready, [])
  | e :: rest =>
    if e.timestamp ≤ ts then consumeTimers ts (ready + e.delta) rest
    else (ready, e :: rest)

/-- The body of the `for i, dp := range dataPoints[1:]` loop of `simulateHPA`
(reco.go lines 199-232), written as a recursion over the remaining data
points.  State: current ready resources, pending timer list, and the running
`calculatedMinReplicas`.  Returns the simulated supply points (in order) and
the final `calculatedMinReplicas`. -/
def simLoop (redLineUtil acl : ℚ) (target : ℤ) (perPodResources : ℚ)
    (maxReplicas minReplicas : ℤ) :
    List DataPoint → ℚ → List TimerEvent → ℚ → List DataPoint × ℚ
  | [], _ready, _timers, calcMin => ([], calcMin)
  | dp :: rest, ready, timers, calcMin =>
    let drained := consumeTimers dp.timestamp ready timers
    let ready1 := drained.1
    let timers1 := drained.2
    let newReplicas := clampedReplicas target perPodResources maxReplicas minReplicas dp.value
    let calcMin1 := min calcMin (rawReplicas target perPodResources dp.value)
    let newResources := newReplicas * perPodResources
    if ready1 < newResources then
      let delta := newResources - ready1 - (timers1.map fun t => t.delta).sum
      let timers2 :=
        if 0 < delta then timers1 ++ [⟨dp.timestamp + acl, delta⟩] else timers1
      let r := simLoop redLineUtil acl target perPodResources maxReplicas minReplicas
        rest ready1 timers2 calcMin1
      (⟨dp.timestamp, ready1 * redLineUtil⟩ :: r.1, r.2)
    else
      let r := simLoop redLineUtil acl target perPodResources maxReplicas minReplicas
        rest newResources [] calcMin1
      (⟨dp.timestamp, newResources * redLineUtil⟩ :: r.1, r.2)

/-- `CpuUtilizationBasedRecommender.simulateHPA` (reco.go lines 171-235).
`redLineUtil` is the receiver field `c.redLineUtil`.  `none` models a non-nil
returned error (the invalid-target error is the only one). -/
def simulateHPA (redLineUtil : ℚ) (dataPoints : List DataPoint) (acl : ℚ)
    (targetUtilization : ℤ) (perPodResources : ℚ) (maxReplicas minReplicas : ℤ) :
    Option (List DataPoint × ℤ) :=
  let target := effectiveTarget targetUtilization
  match dataPoints with
  | [] => some ([], 0)
  | dp0 :: rest =>
    if target < 1 ∨ 100 < target then none
    else
      let currentReplicas :=
        clampedReplicas target perPodResources maxReplicas minReplicas dp0.value
      let calculatedMinReplicas := rawReplicas target perPodResources dp0.value
      let currentResources := currentReplicas * perPodResources
      let r := simLoop redLineUtil acl target perPodResources maxReplicas minReplicas
        rest currentResources [] calculatedMinReplicas
      some (⟨dp0.timestamp, currentResources * redLineUtil⟩ :: r.1, goFloatToInt r.2)

/-- `CpuUtilizationBasedRecommender.hasNoBreachOccurred` (reco.go lines
237-244): `true` unless some original value exceeds the simulated value at
the same index.  Callers always pass lists of equal length (the simulated
series is produced from the original one). -/
def hasNoBreachOccurred : List DataPoint → List DataPoint → Bool
  | [], _ => true
  | _ :: _, [] => true
  | o :: os, s :: ss => if s.value < o.value then false else hasNoBreachOccurred os ss

/-- `CpuUtilizationBasedRecommender.calculateSavings` (reco.go lines 296-306). -/
def calculateSavings (redLineUtil : ℚ) (maxReplicas : ℤ) (simulated : List DataPoint)
    (perPodResources : ℚ) : ℚ :=
  let total := (simulated.map fun dp =>
    (maxReplicas : ℚ) * perPodResources - dp.value / redLineUtil).sum
  total / ((maxReplicas : ℚ) * perPodResources) / (simulated.length : ℚ) * 100

/-- Errors of `findOptimalHPAConfigurations`: a propagated simulation error,
or the sentinel `unableToRecommendError` (reco.go line 41). -/
inductive FindOptError where
  | simulationError : FindOptError
  | unableToRecommend : FindOptError
deriving DecidableEq

/-- The inner binary-search loop of `findOptimalHPAConfigurations` (reco.go
lines 259-277), written with an explicit iteration bound (`fuel`) so that
the recursion is structural; the interval `[low, high]` shrinks strictly at
every iteration, so a fuel of `(high + 1 - low).toNat` always suffices and
the fuel-0 branch coincides with the loop-exit result.  `f` is
`fun target => simulateHPA dataPoints acl target ...`; the carried pair is
`(simulatedHPAList, calculatedMin)` exactly as in the source (both are
assigned by every probe).  Returns `none` on a simulation error, otherwise
`(high, simulatedHPAList, calculatedMin)` at loop exit. -/
def innerSearchGo (f : ℤ → Option (List DataPoint × ℤ)) (orig : List DataPoint) :
    Nat → ℤ → ℤ → List DataPoint × ℤ → Option (ℤ × (List DataPoint × ℤ))
  | 0, _low, high, st => some (high, st)
  | fuel + 1, low, high, st =>
    if low ≤ high then
      let mid := low + goIntDiv (high - low) 2
      match f mid with
      | none => none
      | some st1 =>
        if hasNoBreachOccurred orig st1.1 then innerSearchGo f orig fuel (mid + 1) high st1
        else innerSearchGo f orig fuel low (mid - 1) st1
    else some (high, st)

/-- The binary search `for low <= high { ... }` of
`findOptimalHPAConfigurations`, entered with the exact iteration bound. -/
def innerSearch (f : ℤ → Option (List DataPoint × ℤ)) (orig : List DataPoint)
    (low high : ℤ) (st : List DataPoint × ℤ) :
    Option (ℤ × (List DataPoint × ℤ)) :=
  innerSearchGo f orig (high + 1 - low).toNat low high st

deriving instance DecidableEq for Except

/-- The accumulator of the outer loop of `findOptimalHPAConfigurations`:
`optimalTargetThreshold`, `optimalMin`, `savings` (reco.go lines 252-254). -/
structure SearchState where
  optimalTargetThreshold : ℤ
  optimalMin : ℤ
  savings : ℚ
deriving DecidableEq

/-- The outer `for minReplicas := 1; minReplicas <= maxReplicas` loop of
`findOptimalHPAConfigurations` (reco.go lines 256-288), iterating over the
list of candidate floors. -/
def findOptLoop (redLineUtil : ℚ) (dataPoints : List DataPoint) (acl : ℚ)
    (minTarget : ℤ) (maxTarget : ℤ) (perPodResources : ℚ) (maxReplicas : ℤ) :
    List ℤ → SearchState → Except FindOptError SearchState
  | [], st => .ok st
  | m :: ms, st =>
    match innerSearch
      (fun target => simulateHPA redLineUtil dataPoints acl target perPodResources maxReplicas m)
      dataPoints minTarget maxTarget ([], 0) with
    | none => .error .simulationError
    | some (high, simList, calcMin) =>
      let newSavings := calculateSavings redLineUtil maxReplicas simList perPodResources
      let st1 :=
        if minTarget ≤ high ∧ calcMin ≤ m ∧ simList ≠ [] ∧ st.savings ≤ newSavings
        then ⟨high, m, newSavings⟩
        else st
      findOptLoop redLineUtil dataPoints acl minTarget maxTarget perPodResources maxReplicas ms st1

/-- The candidate floors `1, 2, ..., maxReplicas`. -/
def mRange (maxReplicas : ℤ) : List ℤ :=
  (List.range maxReplicas.toNat).map fun (i : ℕ) => (i : ℤ) + 1

/-- `CpuUtilizationBasedRecommender.findOptimalHPAConfigurations` (reco.go
lines 246-294).  On success returns
`(optimalTargetThreshold, optimalMin, maxReplicas)`. -/
def findOptimalHPAConfigurations (redLineUtil : ℚ) (dataPoints : List DataPoint)
    (acl : ℚ) (minTarget maxTarget : ℤ) (perPodResources : ℚ) (maxReplicas : ℤ) :
    Except FindOptError (ℤ × ℤ × ℤ) :=
  match findOptLoop redLineUtil dataPoints acl minTarget maxTarget perPodResources maxReplicas
    (mRange maxReplicas) ⟨0, 0, 0⟩ with
  | .error e => .error e
  | .ok st =>
    if st.optimalTargetThreshold < minTarget ∨ st.savings = 0 then .error .unableToRecommend
    else .ok (st.optimalTargetThreshold, st.optimalMin, maxReplicas)

/-- The breach-freedom predicate at a given target and floor: the simulation
succeeds and its supply has no pointwise breach against the demand series. -/
def noBreachAt (redLineUtil : ℚ) (dataPoints : List DataPoint) (acl : ℚ)
    (perPodResources : ℚ) (maxReplicas : ℤ) (m : ℤ) (target : ℤ) : Bool :=
  match simulateHPA redLineUtil dataPoints acl target perPodResources maxReplicas m with
  | some (s, _) => hasNoBreachOccurred dataPoints s
  | none => false

/-- The targets `minTarget, ..., maxTarget`. -/
def targetRange (minTarget maxTarget : ℤ) : List ℤ :=
  (List.range (maxTarget + 1 - minTarget).toNat).map fun (i : ℕ) => minTarget + (i : ℤ)

/-- Modelled from the words of claim C3 (not from the source), for comparison
with `findOptimalHPAConfigurations`: for each floor `m` take the largest
target in `[minTarget, maxTarget]` whose simulated supply has no pointwise
breach, record the candidate only if the observedMin of the simulation at
that very target is at most `m` and the target is at least `minTarget`, and
score it by the savings of the supply series simulated at exactly that
target; a candidate replaces the running best when its savings are
greater-or-equal. -/
def findOptimalPerClaim (redLineUtil : ℚ) (dataPoints : List DataPoint)
    (acl : ℚ) (minTarget maxTarget : ℤ) (perPodResources : ℚ) (maxReplicas : ℤ) :
    Except FindOptError (ℤ × ℤ × ℤ) :=
  let st := (mRange maxReplicas).foldl (fun st m =>
    match ((targetRange minTarget maxTarget).filter
        (noBreachAt redLineUtil dataPoints acl perPodResources maxReplicas m)).max? with
    | none => st
    | some t =>
      match simulateHPA redLineUtil dataPoints acl t perPodResources maxReplicas m with
      | none => st
      | some (s, calcMin) =>
        let newSavings := calculateSavings redLineUtil maxReplicas s perPodResources
        if minTarget ≤ t ∧ calcMin ≤ m ∧ s ≠ [] ∧ st.savings ≤ newSavings
        then ⟨t, m, newSavings⟩
        else st) (⟨0, 0, 0⟩ : SearchState)
  if st.optimalTargetThreshold < minTarget ∨ st.savings = 0 then .error .unableToRecommend
  else .ok (st.optimalTargetThreshold, st.optimalMin, maxReplicas)

/-- `CpuUtilizationBasedRecommender.isMetricsAboveThreshold` (reco.go lines
349-356).  `metricWindowSec`/`metricStepSec` are the durations in (possibly
fractional) seconds; Go converts each to `int` before dividing. -/
def isMetricsAboveThreshold (metricWindowSec metricStepSec : ℚ)
    (metricsPercentageThreshold : ℤ) (dataPoints : List DataPoint) : Bool :=
  let totalDataPoints : ℤ := goIntDiv (goFloatToInt metricWindowSec) (goFloatToInt metricStepSec)
  let percentageOfDataPointsFetched : ℚ :=
    ((dataPoints.length : ℚ) / (totalDataPoints : ℚ)) * 100
  if goFloatToInt percentageOfDataPointsFetched < metricsPercentageThreshold then false
  else true

/-- The `for _, transformers := range c.metricsTransformer` loop of
`Recommend` (reco.go lines 121-129): apply each transformer in order,
aborting on the first error. -/
def applyTransformers {ε : Type} (transformers : List (List DataPoint → Except ε (List DataPoint))) :
    List DataPoint → Except ε (List DataPoint)
  | dataPoints =>
    match transformers with
    | [] => .ok dataPoints
    | f :: rest =>
      match f dataPoints with
      | .error e => .error e
      | .ok dataPoints1 => applyTransformers rest dataPoints1

/-- Errors returned by `Recommend`: a collaborator error propagated
unchanged, or the invalid-target simulation error from
`findOptimalHPAConfigurations`. -/
inductive RecoError (ε : Type) where
  | collab : ε → RecoError ε
  | invalidTarget : RecoError ε
deriving DecidableEq

/-- `CpuUtilizationBasedRecommender.Recommend` (reco.go lines 88-157).
The collaborator calls (scraper, registry, transformers) are passed in as
their results; everything downstream of them is the source's control flow.
`minTarget`, `maxTarget`, `metricsPercentageThreshold`, `redLineUtil`,
`metricWindowSec`, `metricStepSec` are the receiver's fields. -/
def Recommend {ε : Type} (redLineUtil : ℚ) (metricWindowSec metricStepSec : ℚ)
    (minTarget maxTarget : ℤ) (metricsPercentageThreshold : ℤ)
    (scrapeRes : Except ε (List DataPoint))
    (maxPodsRes : Except ε ℤ)
    (transformers : List (List DataPoint → Except ε (List DataPoint)))
    (aclRes : Except ε ℚ)
    (perPodRes : Except ε ℚ) : Except (RecoError ε) HPAConfiguration :=
  match scrapeRes with
  | .error e => .error (.collab e)
  | .ok dataPoints =>
    match maxPodsRes with
    | .error e => .error (.collab e)
    | .ok workloadMaxReplicas =>
      if isMetricsAboveThreshold metricWindowSec metricStepSec metricsPercentageThreshold
          dataPoints = false then
        .ok ⟨workloadMaxReplicas, workloadMaxReplicas, minTarget⟩
      else
        match applyTransformers transformers dataPoints with
        | .error e => .error (.collab e)
        | .ok dataPoints1 =>
          match aclRes with
          | .error e => .error (.collab e)
          | .ok acl =>
            match perPodRes with
            | .error e => .error (.collab e)
            | .ok perPodResources =>
              match findOptimalHPAConfigurations redLineUtil dataPoints1 acl minTarget maxTarget
                perPodResources workloadMaxReplicas with
              | .error .unableToRecommend =>
                .ok ⟨workloadMaxReplicas, workloadMaxReplicas, minTarget⟩
              | .error .simulationError => .error .invalidTarget
              | .ok (optimalTargetUtil, minReplicas, maxReplicas) =>
                .ok ⟨minReplicas, maxReplicas, optimalTargetUtil⟩

/-- A `kedaapi.ScaledObject` as far as `getMaxPods` reads it: its
`Spec.MaxReplicaCount`, a nil-able `int32`. -/
structure ScaledObject where
  MaxReplicaCount : Option ℤ
deriving DecidableEq

/-- Error of the k8s `List` call in `getMaxPods`; `notFound` errors are
discarded by `client.IgnoreNotFound`. -/
structure ListError (ε : Type) where
  notFound : Bool
  cause : ε
deriving DecidableEq

/-- The trailing `deploymentClient.GetReplicaCount` fallback of `getMaxPods`
(reco.go lines 342-346). -/
def fallbackReplicaCount {ε : Type} (replicaCountRes : Except ε ℤ) : Except (Option ε) ℤ :=
  match replicaCountRes with
  | .ok maxPods => .ok maxPods
  | .error e => .error (some e)

/-- `CpuUtilizationBasedRecommender.getMaxPods` (reco.go lines 321-347):
annotation wins; else the first matching ScaledObject's `MaxReplicaCount`;
else the current replica count.  On a k8s `List` error the zero-valued
(empty) list is kept, so only non-notFound errors abort. -/
def getMaxPods {ε : Type} (annotationRes : Except ε ℤ)
    (scaledObjectsRes : Except (ListError ε) (List ScaledObject))
    (replicaCountRes : Except ε ℤ) : Except (Option ε) ℤ :=
  match annotationRes with
  | .ok maxPods => .ok maxPods
  | .error _ =>
    let listOutcome : Except Unit (List ScaledObject) :=
      match scaledObjectsRes with
      | .ok items => .ok items
      | .error e => if e.notFound then .ok [] else .error ()
    match listOutcome with
    | .error _ => .error none
    | .ok scaledObjects =>
      match scaledObjects.head? with
      | some so =>
        match so.MaxReplicaCount with
        | some n => .ok n
        | none => fallbackReplicaCount replicaCountRes
      | none => fallbackReplicaCount replicaCountRes

/-- `reco.createRecoConfigFromPolicy` (workflow.go lines 174-183).  Note the
inner expression `policy.MinReplicaPercentageCut*(recoConfig.Max-recoConfig.Min)/100`
is Go integer arithmetic: the division truncates before the value is
converted to float and `math.Ceil` is applied. -/
def createRecoConfigFromPolicy (policy : Option Policy) (recoConfig : Option HPAConfiguration) :
    Except Unit HPAConfiguration :=
  match policy, recoConfig with
  | some p, some cfg =>
    .ok ⟨cfg.Max - ⌈((goIntDiv (p.MinReplicaPercentageCut * (cfg.Max - cfg.Min)) 100 : ℤ) : ℚ)⌉,
         cfg.Max,
         p.TargetUtilization⟩
  | _, _ => .error ()

/-- `reco.shouldApplyReco` (workflow.go lines 186-200). -/
def shouldApplyReco (config : Option HPAConfiguration) (policy : Option Policy) : Bool :=
  match policy with
  | none => true
  | some p =>
    match config with
    | none => false
    | some cfg =>
      if p.MinReplicaPercentageCut = 100 ∧ cfg.TargetMetricValue < p.TargetUtilization then true
      else false

/-- `reco.pickSafestPolicy` (workflow.go lines 202-217). -/
def pickSafestPolicy (p1 p2 : Option Policy) : Option Policy :=
  match p1, p2 with
  | none, some p => some p
  | some p, none => some p
  | none, none => none
  | some a, some b => if a.RiskIndex ≤ b.RiskIndex then some a else some b

/-- `reco.transformTargetRecoConfig` (workflow.go lines 219-229), on the
non-nil configuration `Execute` always passes it. -/
def transformTargetRecoConfigVal (targetRecoConfig : HPAConfiguration)
    (minRequiredReplicas : ℤ) : HPAConfiguration :=
  let maxReplicas := targetRecoConfig.Max
  let minReplicas :=
    if minRequiredReplicas ≤ targetRecoConfig.Max ∧ targetRecoConfig.Min < minRequiredReplicas
    then minRequiredReplicas else targetRecoConfig.Min
  ⟨minReplicas, maxReplicas, targetRecoConfig.TargetMetricValue⟩

/-- `reco.findClosestSafePolicy` (workflow.go lines 231-240): fold over the
catalog keeping the last matching CR, starting from the zero value. -/
def findClosestSafePolicy (config : HPAConfiguration) (policies : List PolicyCR) : Policy :=
  PolicyFromCR (policies.foldl
    (fun closestSafePolicy pc =>
      if pc.Spec.MinReplicaPercentageCut = 100 ∧
          pc.Spec.TargetUtilization ≤ config.TargetMetricValue
      then pc else closestSafePolicy)
    zeroPolicyCR)

/-- `RecommendationWorkflowImpl.generateNextRecoConfig` (workflow.go lines
161-172).  `storeSortedRes` is the result of `policyStore.GetSortedPolicies`.
Note the error branch returns `(config, nil)` with the store error dropped,
and the error of `createRecoConfigFromPolicy` is discarded (`recoConfig, _`),
yielding a nil configuration in that case. -/
def generateNextRecoConfig {ε : Type} (storeSortedRes : Except ε (List PolicyCR))
    (config : HPAConfiguration) (policy : Option Policy) :
    Option HPAConfiguration × Option Policy :=
  if shouldApplyReco (some config) policy then
    match storeSortedRes with
    | .error _ => (some config, none)
    | .ok policies => (some config, some (findClosestSafePolicy config policies))
  else
    ((createRecoConfigFromPolicy policy (some config)).toOption, policy)

/-- The `for i, pi := range rw.policyIterators` loop of `Execute`
(workflow.go lines 138-155): iterator results are consumed in map-iteration
order, errors abort, nil policies are skipped, others are merged through
`pickSafestPolicy`. -/
def foldPolicies {ε : Type} (nextPolicy : Option Policy) :
    List (Except ε (Option Policy)) → Except ε (Option Policy)
  | [] => .ok nextPolicy
  | r :: rest =>
    match r with
    | .error e => .error e
    | .ok none => foldPolicies nextPolicy rest
    | .ok (some p) => foldPolicies (pickSafestPolicy nextPolicy (some p)) rest

/-- `RecommendationWorkflowImpl.Execute` (workflow.go lines 119-159), with a
configured recommender.  `recommendRes` is the recommender's result,
`iterResults` the policy iterators' results in iteration order, and
`storeSortedRes` the policy store's sorted catalog result.  Returns
`(nextConfig, targetRecoConfig, policyToApply)`. -/
def Execute {ε : Type} (recommendRes : Except ε HPAConfiguration)
    (minRequiredReplicas : ℤ)
    (iterResults : List (Except ε (Option Policy)))
    (storeSortedRes : Except ε (List PolicyCR)) :
    Except ε (Option HPAConfiguration × Option HPAConfiguration × Option Policy) :=
  match recommendRes with
  | .error e => .error e
  | .ok cfg =>
    let targetRecoConfig := transformTargetRecoConfigVal cfg minRequiredReplicas
    match foldPolicies none iterResults with
    | .error e => .error e
    | .ok nextPolicy =>
      let r := generateNextRecoConfig storeSortedRes targetRecoConfig nextPolicy
      .ok (r.1, some targetRecoConfig, r.2)

/-- `v1alpha1.PolicyRecommendation.Spec` as read by the aging iterator:
the persisted policy name and its transition time. -/
structure PolicyRecommendationSpec where
  Policy : String
  TransitionedAt : ℚ
deriving DecidableEq

/-- Go's zero value for the record, left in place when `client.Get` fails. -/
def zeroPolicyRecommendationSpec : PolicyRecommendationSpec := ⟨"", 0⟩

/-- `reco.isAgeBeyondExpiry` (policyiterators.go lines 109-119) on the
always-non-nil record `AgingPolicyIterator.NextPolicy` passes: not expired
while `transitionedAt + age` is after `now`. -/
def isAgeBeyondExpiry (transitionedAt age now : ℚ) : Bool :=
  if now < transitionedAt + age then false else true

/-- `AgingPolicyIterator.NextPolicy` (policyiterators.go lines 60-98).
`getRes` is the result of the `client.Get` call, whose error the source
ignores, leaving the zero-valued record; `safestRes`, `byNameRes`,
`nextByNameRes` are the policy-store call results. -/
def AgingNextPolicy {ε : Type} (getRes : Except ε PolicyRecommendationSpec)
    (age now : ℚ)
    (safestRes : Except ε PolicyCR)
    (byNameRes : Except ε PolicyCR)
    (nextByNameRes : Except ε PolicyCR) : Except ε (Option Policy) :=
  let policyreco := match getRes with
    | .ok r => r
    | .error _ => zeroPolicyRecommendationSpec
  let expired := isAgeBeyondExpiry policyreco.TransitionedAt age now
  if policyreco.Policy.length = 0 then
    match safestRes with
    | .error e => .error e
    | .ok p => .ok (some (PolicyFromCR p))
  else if expired = false then
    match byNameRes with
    | .error e => .error e
    | .ok p => .ok (some (PolicyFromCR p))
  else
    match nextByNameRes with
    | .error e => .error e
    | .ok p => .ok (some (PolicyFromCR p))

/-- Closed form of the simulated supply when every pending timer fires
before the next sample: carrying the eventual resources `prev` of the
previous step, each step emits `min prev new` (times the red line) and moves
to eventual resources `new`. -/
def supplySeries (redLineUtil : ℚ) (target : ℤ) (perPodResources : ℚ)
    (maxReplicas minReplicas : ℤ) : ℚ → List DataPoint → List DataPoint
  | _prev, [] => []
  | prev, dp :: rest =>
    let nr := clampedReplicas target perPodResources maxReplicas minReplicas dp.value
      * perPodResources
    ⟨dp.timestamp, min prev nr * redLineUtil⟩ ::
      supplySeries redLineUtil target perPodResources maxReplicas minReplicas nr rest

/-- The breach-freedom outcome of one binary-search probe. -/
def probeNoBreach (f : ℤ → Option (List DataPoint × ℤ)) (orig : List DataPoint) (t : ℤ) : Bool :=
  match f t with
  | some st => hasNoBreachOccurred orig st.1
  | none => false

/-!  ## Theorems -/

/-- Claim C10: `simulateHPA` checks for an empty input series before validating
the inflated target: an empty series yields an empty supply series,
`observedMin = 0` and no error even when the inflated target lies outside
`[1, 100]`; for a non-empty series an out-of-range inflated target yields
the invalid-target error. -/
theorem simulateHPA_empty_series_before_target_validation
    (redLineUtil acl : ℚ) (targetUtilization : ℤ) (perPodResources : ℚ)
    (maxReplicas minReplicas : ℤ) :
    simulateHPA redLineUtil [] acl targetUtilization perPodResources maxReplicas minReplicas
      = some ([], 0) ∧
    (∀ dp0 rest,
      (effectiveTarget targetUtilization < 1 ∨ 100 < effectiveTarget targetUtilization) →
      simulateHPA redLineUtil (dp0 :: rest) acl targetUtilization perPodResources maxReplicas
        minReplicas = none) := by
  refine ⟨rfl, ?_⟩
  intro dp0 rest h
  simp only [simulateHPA, if_pos h]

/-- Witness for C10 at a concrete out-of-range target (`200`, inflated to
`220`): empty series still succeeds, a one-point series errors. -/
theorem simulateHPA_empty_series_before_target_validation_witness :
    simulateHPA 1 [] 0 200 1 10 1 = some ([], 0) ∧
    simulateHPA 1 [⟨0, 1⟩] 0 200 1 10 1 = none := by
  refine ⟨(simulateHPA_empty_series_before_target_validation 1 0 200 1 10 1).1, ?_⟩
  exact (simulateHPA_empty_series_before_target_validation 1 0 200 1 10 1).2 ⟨0, 1⟩ []
    (Or.inr (by with_unfolding_all decide))

/-- Claim C2 (code bug): at `minReplicaPercentageCut = 50` and `max − min = 5` the
source computes the cut with Go integer division (`50*5/100 = 2`) before the
(now vacuous) `math.Ceil`, so `Min = 10 − 2 = 8`, whereas the ceiling over
the exact rational quotient demanded by the claim gives `10 − ⌈2.5⌉ = 7`. -/
theorem createRecoConfigFromPolicy_truncates_before_ceil :
    createRecoConfigFromPolicy (some ⟨"pol", "2", 50, 60⟩) (some ⟨5, 10, 40⟩)
      = .ok ⟨8, 10, 60⟩ ∧
    (10 - ⌈(50 * ((10 : ℚ) - 5)) / 100⌉ : ℤ) = 7 := by
  constructor
  · with_unfolding_all decide
  · with_unfolding_all decide

/-- Claim C5: `shouldApplyReco cfg p` is true iff `p` is nil, or `cfg` is non-nil
and `p.MinReplicaPercentageCut = 100` and
`cfg.TargetMetricValue < p.TargetUtilization`; and whenever it is false the
applied configuration is derived from the policy via
`createRecoConfigFromPolicy`. -/
theorem shouldApplyReco_spec :
    (∀ (config : Option HPAConfiguration) (policy : Option Policy),
      shouldApplyReco config policy = true ↔
        policy = none ∨
          ∃ p cfg, policy = some p ∧ config = some cfg ∧
            p.MinReplicaPercentageCut = 100 ∧
            cfg.TargetMetricValue < p.TargetUtilization) ∧
    (∀ (ε : Type) (storeSortedRes : Except ε (List PolicyCR)) (config : HPAConfiguration)
      (policy : Option Policy),
      shouldApplyReco (some config) policy = false →
      generateNextRecoConfig storeSortedRes config policy =
        ((createRecoConfigFromPolicy policy (some config)).toOption, policy)) := by
  constructor
  · intro config policy
    rcases policy with _ | p
    · simp [shouldApplyReco]
    · rcases config with _ | cfg
      · simp [shouldApplyReco]
      · by_cases h : p.MinReplicaPercentageCut = 100 ∧
            cfg.TargetMetricValue < p.TargetUtilization
        · simp [shouldApplyReco, h]
        · simp only [shouldApplyReco, if_neg h]
          simp only [Bool.false_eq_true, false_iff]
          rintro (hc | ⟨p1, cfg1, hp1, hc1, h100, hlt⟩)
          · exact Option.noConfusion hc
          · cases Option.some.inj hp1
            cases Option.some.inj hc1
            exact h ⟨h100, hlt⟩
  · intro ε storeSortedRes config policy h
    have hne : ¬ shouldApplyReco (some config) policy = true := by simp [h]
    simp only [generateNextRecoConfig, if_neg hne]

/-- Witness for C5: a concrete safer-recommendation case where the iff gives
true, and a concrete low-cut policy case where the policy wins and the
applied configuration is derived from it. -/
theorem shouldApplyReco_spec_witness :
    shouldApplyReco (some ⟨1, 10, 40⟩) (some ⟨"safe", "1", 100, 50⟩) = true ∧
    generateNextRecoConfig (Except.ok [] : Except Unit (List PolicyCR)) ⟨1, 10, 40⟩
        (some ⟨"aggressive", "3", 50, 60⟩) =
      ((createRecoConfigFromPolicy (some ⟨"aggressive", "3", 50, 60⟩)
          (some ⟨1, 10, 40⟩)).toOption,
        some ⟨"aggressive", "3", 50, 60⟩) := by
  constructor
  · exact (shouldApplyReco_spec.1 (some ⟨1, 10, 40⟩) (some ⟨"safe", "1", 100, 50⟩)).mpr
      (Or.inr ⟨⟨"safe", "1", 100, 50⟩, ⟨1, 10, 40⟩, rfl, rfl, rfl, by decide⟩)
  · exact shouldApplyReco_spec.2 Unit (Except.ok [] : Except Unit (List PolicyCR))
      ⟨1, 10, 40⟩ (some ⟨"aggressive", "3", 50, 60⟩) (by decide)

/-- `pickSafestPolicy` helper: nil left identity. -/
theorem pickSafest_none_left (a : Option Policy) : pickSafestPolicy none a = a := by
  cases a <;> rfl

theorem pickSafest_none_right (a : Option Policy) : pickSafestPolicy a none = a := by
  cases a <;> rfl

theorem pickSafest_some_some (a b : Policy) :
    pickSafestPolicy (some a) (some b) =
      if a.RiskIndex ≤ b.RiskIndex then some a else some b := rfl

/-- Claim C6 (amended): `pickSafestPolicy` has nil as a two-sided identity and
is associative, and it is commutative whenever the two policies carry
different `RiskIndex` values; for distinct policies with equal risk index it
is left-biased (see the counterexample). -/
theorem pickSafestPolicy_assoc_identity_conditional_comm :
    (∀ a : Option Policy, pickSafestPolicy none a = a ∧ pickSafestPolicy a none = a) ∧
    (∀ a b c : Option Policy,
      pickSafestPolicy (pickSafestPolicy a b) c = pickSafestPolicy a (pickSafestPolicy b c)) ∧
    (∀ p q : Policy, p.RiskIndex ≠ q.RiskIndex →
      pickSafestPolicy (some p) (some q) = pickSafestPolicy (some q) (some p)) := by
  refine ⟨fun a => ⟨pickSafest_none_left a, pickSafest_none_right a⟩, ?_, ?_⟩
  · intro a b c
    rcases a with _ | a
    · rw [pickSafest_none_left, pickSafest_none_left]
    · rcases b with _ | b
      · rw [pickSafest_none_right, pickSafest_none_left]
      · rcases c with _ | c
        · rw [pickSafest_none_right, pickSafest_none_right]
        · by_cases hab : a.RiskIndex ≤ b.RiskIndex
          · by_cases hbc : b.RiskIndex ≤ c.RiskIndex
            · have h1 : pickSafestPolicy (some a) (some b) = some a := by
                rw [pickSafest_some_some, if_pos hab]
              have h2 : pickSafestPolicy (some b) (some c) = some b := by
                rw [pickSafest_some_some, if_pos hbc]
              rw [h1, h2, pickSafest_some_some a c, if_pos (le_trans hab hbc), h1]
            · have h1 : pickSafestPolicy (some a) (some b) = some a := by
                rw [pickSafest_some_some, if_pos hab]
              have h2 : pickSafestPolicy (some b) (some c) = some c := by
                rw [pickSafest_some_some, if_neg hbc]
              rw [h1, h2]
          · by_cases hbc : b.RiskIndex ≤ c.RiskIndex
            · have h1 : pickSafestPolicy (some a) (some b) = some b := by
                rw [pickSafest_some_some, if_neg hab]
              have h2 : pickSafestPolicy (some b) (some c) = some b := by
                rw [pickSafest_some_some, if_pos hbc]
              rw [h1, h2, h1]
            · have hac : ¬ a.RiskIndex ≤ c.RiskIndex := fun h =>
                hab (le_trans h (le_of_not_le hbc))
              have h1 : pickSafestPolicy (some a) (some b) = some b := by
                rw [pickSafest_some_some, if_neg hab]
              have h2 : pickSafestPolicy (some b) (some c) = some c := by
                rw [pickSafest_some_some, if_neg hbc]
              rw [h1, h2, pickSafest_some_some a c, if_neg hac]
  · intro p q hpq
    by_cases h : p.RiskIndex ≤ q.RiskIndex
    · have h2 : ¬ q.RiskIndex ≤ p.RiskIndex := fun hq => hpq (le_antisymm h hq)
      rw [pickSafest_some_some, if_pos h, pickSafest_some_some, if_neg h2]
    · have h2 : q.RiskIndex ≤ p.RiskIndex := le_of_not_le h
      rw [pickSafest_some_some, if_neg h, pickSafest_some_some, if_pos h2]

/-- Claim C6 counterexample: two distinct policies with the same riskIndex
are ordered by argument position, so `pickSafestPolicy` is not commutative. -/
theorem pickSafestPolicy_not_commutative_counterexample :
    pickSafestPolicy (some ⟨"policy-a", "L1", 100, 50⟩) (some ⟨"policy-b", "L1", 100, 60⟩) ≠
      pickSafestPolicy (some ⟨"policy-b", "L1", 100, 60⟩) (some ⟨"policy-a", "L1", 100, 50⟩) := by
  have h1 : pickSafestPolicy (some ⟨"policy-a", "L1", 100, 50⟩)
      (some ⟨"policy-b", "L1", 100, 60⟩) = some ⟨"policy-a", "L1", 100, 50⟩ := by
    rw [pickSafest_some_some, if_pos le_rfl]
  have h2 : pickSafestPolicy (some ⟨"policy-b", "L1", 100, 60⟩)
      (some ⟨"policy-a", "L1", 100, 50⟩) = some ⟨"policy-b", "L1", 100, 60⟩ := by
    rw [pickSafest_some_some, if_pos le_rfl]
  rw [h1, h2]
  intro h
  have h3 := congrArg (fun o => Option.map Policy.TargetUtilization o) h
  simp only [Option.map_some] at h3
  exact absurd (Option.some.inj h3) (by decide)

theorem pickSafestPolicy_assoc_identity_conditional_comm_witness :
    pickSafestPolicy none (some ⟨"a", "L1", 100, 10⟩) = some ⟨"a", "L1", 100, 10⟩ ∧
    pickSafestPolicy (some ⟨"a", "L1", 100, 10⟩) (some ⟨"b", "L2", 50, 20⟩) =
      pickSafestPolicy (some ⟨"b", "L2", 50, 20⟩) (some ⟨"a", "L1", 100, 10⟩) := by
  exact ⟨(pickSafestPolicy_assoc_identity_conditional_comm.1 (some ⟨"a", "L1", 100, 10⟩)).1,
    pickSafestPolicy_assoc_identity_conditional_comm.2.2 ⟨"a", "L1", 100, 10⟩
      ⟨"b", "L2", 50, 20⟩ (by decide)⟩

theorem foldl_keep_last {α : Type} (P : α → Prop) [DecidablePred P] :
    ∀ (l : List α) (a : α),
      l.foldl (fun acc x => if P x then x else acc) a =
        (l.reverse.find? (fun x => decide (P x))).getD a := by
  intro l
  induction l with
  | nil => intro a; rfl
  | cons x xs ih =>
    intro a
    simp only [List.foldl_cons, List.reverse_cons, List.find?_append, ih]
    cases h : xs.reverse.find? (fun x => decide (P x)) with
    | some y => simp [Option.orElse]
    | none =>
      by_cases hx : P x <;> simp [Option.orElse, List.find?, hx]

/-- Claim C8: `findClosestSafePolicy` returns the last policy of the catalog
(scanning in list order) whose `MinReplicaPercentageCut` is 100 and whose
`TargetUtilization` is at most the configuration target, and falls back to
the zero-valued (nil/empty) policy when nothing matches. -/
theorem findClosestSafePolicy_last_match (config : HPAConfiguration) (policies : List PolicyCR) :
    findClosestSafePolicy config policies =
      PolicyFromCR ((policies.reverse.find? (fun pc =>
        decide (pc.Spec.MinReplicaPercentageCut = 100 ∧
          pc.Spec.TargetUtilization ≤ config.TargetMetricValue))).getD zeroPolicyCR) := by
  unfold findClosestSafePolicy
  rw [foldl_keep_last (fun pc : PolicyCR => pc.Spec.MinReplicaPercentageCut = 100 ∧
    pc.Spec.TargetUtilization ≤ config.TargetMetricValue) policies zeroPolicyCR]

/-- Iterator-loop helper: leading ok results never abort the loop, so the
first error in iteration order is returned. -/
theorem foldPolicies_error_after_oks {ε : Type} (e : ε) (rest : List (Except ε (Option Policy))) :
    ∀ (oks : List (Option Policy)) (acc : Option Policy),
      foldPolicies acc (oks.map Except.ok ++ Except.error e :: rest) = .error e := by
  intro oks
  induction oks with
  | nil => intro acc; rfl
  | cons o os ih =>
    intro acc
    cases o with
    | none => exact ih acc
    | some p => exact ih (pickSafestPolicy acc (some p))

/-- Claim C9 counterexample: a policy-store failure on the sorted-policies
fetch is swallowed (Execute returns ok with a nil applied policy), and a
failed read of the persisted PolicyRecommendation record is ignored (the
aging iterator answers with the safest policy instead of the error). -/
theorem Execute_swallows_store_error_counterexample :
    Execute (Except.ok ⟨4, 10, 40⟩ : Except String HPAConfiguration) 3
        [Except.ok (some ⟨"noop", "L1", 100, 50⟩)] (Except.error "store-down")
      = Except.ok (some ⟨4, 10, 40⟩, some ⟨4, 10, 40⟩, none) ∧
    AgingNextPolicy (Except.error "get-failed" : Except String PolicyRecommendationSpec)
        604800 1000000
        (Except.ok ⟨"safest", ⟨"L1", 100, 0⟩⟩) (Except.ok ⟨"current", ⟨"L2", 80, 0⟩⟩)
        (Except.ok ⟨"next", ⟨"L3", 60, 0⟩⟩)
      = Except.ok (some ⟨"safest", "L1", 100, 0⟩) := by
  constructor
  · with_unfolding_all decide
  · with_unfolding_all decide

/-- Claim C9 (amended): recommender failures and policy-iterator failures
surface from `Execute` with their original cause preserved, and the aging
iterator propagates policy-store failures unchanged on each of its three
paths; but the sorted-policies store failure on the apply-recommendation
path is swallowed into `(config, nil)`. -/
theorem Execute_error_propagation (ε : Type) :
    (∀ (e : ε) minR iters store, Execute (Except.error e) minR iters store = Except.error e) ∧
    (∀ (cfg : HPAConfiguration) minR (oks : List (Option Policy)) (e : ε) rest store,
      Execute (Except.ok cfg) minR (oks.map Except.ok ++ Except.error e :: rest) store
        = Except.error e) ∧
    (∀ (e : ε) (cfg : HPAConfiguration) (policy : Option Policy),
      shouldApplyReco (some cfg) policy = true →
      generateNextRecoConfig (Except.error e) cfg policy = (some cfg, none)) ∧
    (∀ (e : ε) (r : PolicyRecommendationSpec) age now byNameRes nextByNameRes,
      r.Policy.length = 0 →
      AgingNextPolicy (Except.ok r) age now (Except.error e) byNameRes nextByNameRes
        = Except.error e) ∧
    (∀ (e : ε) (r : PolicyRecommendationSpec) age now safestRes nextByNameRes,
      r.Policy.length ≠ 0 → isAgeBeyondExpiry r.TransitionedAt age now = false →
      AgingNextPolicy (Except.ok r) age now safestRes (Except.error e) nextByNameRes
        = Except.error e) ∧
    (∀ (e : ε) (r : PolicyRecommendationSpec) age now safestRes byNameRes,
      r.Policy.length ≠ 0 → isAgeBeyondExpiry r.TransitionedAt age now = true →
      AgingNextPolicy (Except.ok r) age now safestRes byNameRes (Except.error e)
        = Except.error e) := by
  refine ⟨fun e minR iters store => rfl, ?_, ?_, ?_, ?_, ?_⟩
  · intro cfg minR oks e rest store
    simp only [Execute, foldPolicies_error_after_oks e rest oks none]
  · intro e cfg policy h
    simp only [generateNextRecoConfig, if_pos h]
  · intro e r age now byNameRes nextByNameRes h
    simp only [AgingNextPolicy, if_pos h]
  · intro e r age now safestRes nextByNameRes h hexp
    simp only [AgingNextPolicy, if_neg h, hexp]
    simp
  · intro e r age now safestRes byNameRes h hexp
    simp only [AgingNextPolicy, if_neg h, hexp]
    simp

/-- Claim C9 witness: concrete error values propagate through `Execute` and
the aging iterator. -/
theorem Execute_error_propagation_witness :
    Execute (Except.error "scrape-down" : Except String HPAConfiguration) 3 []
        (Except.ok []) = Except.error "scrape-down" ∧
    Execute (Except.ok ⟨1, 5, 30⟩ : Except String HPAConfiguration) 3
        [Except.ok none, Except.error "iterator-down"] (Except.ok [])
      = Except.error "iterator-down" ∧
    AgingNextPolicy (Except.ok ⟨"policy-x", 0⟩ : Except String PolicyRecommendationSpec)
        604800 700000 (Except.ok zeroPolicyCR) (Except.ok zeroPolicyCR)
        (Except.error "store-down")
      = Except.error "store-down" := by
  refine ⟨(Execute_error_propagation String).1 "scrape-down" 3 [] (Except.ok []), ?_, ?_⟩
  · exact (Execute_error_propagation String).2.1 ⟨1, 5, 30⟩ 3 [none] "iterator-down" []
      (Except.ok [])
  · exact (Execute_error_propagation String).2.2.2.2.2 "store-down" ⟨"policy-x", 0⟩ 604800 700000
      (Except.ok zeroPolicyCR) (Except.ok zeroPolicyCR) (by decide)
      (by with_unfolding_all decide)

theorem consumeTimers_all (ts : ℚ) : ∀ (timers : List TimerEvent) (ready : ℚ),
    (∀ tm ∈ timers, tm.timestamp ≤ ts) →
    consumeTimers ts ready timers = (ready + (timers.map fun t => t.delta).sum, []) := by
  intro timers
  induction timers with
  | nil => intro ready _h; simp [consumeTimers]
  | cons e rest ih =>
    intro ready h
    rw [consumeTimers, if_pos (h e (List.mem_cons_self e rest)),
      ih (ready + e.delta) (fun tm htm => h tm (List.mem_cons_of_mem e htm))]
    simp [add_assoc]

theorem simLoop_eq_supplySeries (redLineUtil acl : ℚ) (target : ℤ) (pp : ℚ)
    (maxR minR : ℤ) :
    ∀ (l : List DataPoint) (ready E calcMin : ℚ) (timers : List TimerEvent),
      ready + (timers.map fun t => t.delta).sum = E →
      (∀ dp0, l.head? = some dp0 → ∀ tm ∈ timers, tm.timestamp ≤ dp0.timestamp) →
      List.Chain' (fun a b => a.timestamp + acl ≤ b.timestamp) l →
      (simLoop redLineUtil acl target pp maxR minR l ready timers calcMin).1 =
        supplySeries redLineUtil target pp maxR minR E l := by
  intro l
  induction l with
  | nil => intros; rfl
  | cons dp rest ih =>
    intro ready E calcMin timers hE htm hchain
    have hdrain : consumeTimers dp.timestamp ready timers
        = (ready + (timers.map fun t => t.delta).sum, []) :=
      consumeTimers_all dp.timestamp timers ready (htm dp rfl)
    have hnext : ∀ dp1 ∈ rest.head?, dp.timestamp + acl ≤ dp1.timestamp :=
      (List.chain'_cons'.mp hchain).1
    simp only [simLoop, hdrain, hE]
    set nr := clampedReplicas target pp maxR minR dp.value * pp with hnr
    by_cases h : E < nr
    · rw [if_pos h]
      simp only [List.map_nil, List.sum_nil, sub_zero, List.nil_append]
      rw [if_pos (sub_pos.mpr h)]
      simp only [supplySeries]
      rw [min_eq_left h.le]
      refine congrArg (fun x => _ :: x) ?_
      refine ih E nr (calcMin ⊓ rawReplicas target pp dp.value)
        [⟨dp.timestamp + acl, nr - E⟩] (by simp) ?_ hchain.tail
      intro dp0 h0 tm htm
      rcases List.mem_singleton.mp htm with rfl
      exact hnext dp0 h0
    · rw [if_neg h]
      simp only [supplySeries]
      rw [min_eq_right (not_lt.mp h)]
      refine congrArg (fun x => _ :: x) ?_
      refine ih nr nr (calcMin ⊓ rawReplicas target pp dp.value) [] (by simp)
        (fun dp0 _h0 tm htm => absurd htm (List.not_mem_nil tm)) hchain.tail

theorem rawReplicas_anti (e1 e2 : ℤ) (pp v : ℚ) (h1 : 1 ≤ e1) (h12 : e1 ≤ e2)
    (hpp : 0 < pp) (hv : 0 ≤ v) :
    rawReplicas e2 pp v ≤ rawReplicas e1 pp v := by
  unfold rawReplicas
  have he1 : (0 : ℚ) < (e1 : ℚ) := by exact_mod_cast lt_of_lt_of_le zero_lt_one h1
  have hq : 100 * v / (e2 : ℚ) / pp ≤ 100 * v / (e1 : ℚ) / pp :=
    (div_le_div_iff_of_pos_right hpp).mpr
      (div_le_div_of_nonneg_left (by positivity) he1 (by exact_mod_cast h12))
  exact_mod_cast Int.ceil_le_ceil hq

theorem clampedReplicas_anti (e1 e2 : ℤ) (pp v : ℚ) (maxR minR : ℤ)
    (h1 : 1 ≤ e1) (h12 : e1 ≤ e2) (hpp : 0 < pp) (hv : 0 ≤ v) :
    clampedReplicas e2 pp maxR minR v ≤ clampedReplicas e1 pp maxR minR v := by
  unfold clampedReplicas
  exact min_le_min le_rfl (max_le_max le_rfl (rawReplicas_anti e1 e2 pp v h1 h12 hpp hv))

theorem supplySeries_anti (redLineUtil : ℚ) (e1 e2 : ℤ) (pp : ℚ) (maxR minR : ℤ)
    (h1 : 1 ≤ e1) (h12 : e1 ≤ e2) (hpp : 0 < pp) (hrl : 0 ≤ redLineUtil) :
    ∀ (l : List DataPoint) (E1 E2 : ℚ), E2 ≤ E1 →
      (∀ dp ∈ l, 0 ≤ dp.value) →
      List.Forall₂ (fun a b => b.value ≤ a.value)
        (supplySeries redLineUtil e1 pp maxR minR E1 l)
        (supplySeries redLineUtil e2 pp maxR minR E2 l) := by
  intro l
  induction l with
  | nil => intro E1 E2 _ _; exact List.Forall₂.nil
  | cons dp rest ih =>
    intro E1 E2 hE hval
    simp only [supplySeries]
    refine List.Forall₂.cons ?_ ?_
    · exact mul_le_mul_of_nonneg_right
        (min_le_min hE (mul_le_mul_of_nonneg_right
          (clampedReplicas_anti e1 e2 pp dp.value maxR minR h1 h12 hpp
            (hval dp (List.mem_cons_self dp rest))) hpp.le)) hrl
    · exact ih _ _
        (mul_le_mul_of_nonneg_right
          (clampedReplicas_anti e1 e2 pp dp.value maxR minR h1 h12 hpp
            (hval dp (List.mem_cons_self dp rest))) hpp.le)
        (fun x hx => hval x (List.mem_cons_of_mem dp hx))

theorem effectiveTarget_mono (t1 t2 : ℤ) (h : t1 ≤ t2) :
    effectiveTarget t1 ≤ effectiveTarget t2 := by
  unfold effectiveTarget
  refine Int.floor_le_floor ?_
  have : (t1 : ℚ) ≤ (t2 : ℚ) := by exact_mod_cast h
  nlinarith [this]

/-- Claim C1 (amended): monotone safety of the simulator holds whenever the
autoscaling cycle lag fits within each step of the series
(`t(i) + acl ≤ t(i+1)`), the series values are nonnegative,
`perPodResources > 0` and `redLineUtil ≥ 0`: for targets `t1 < t2` with
both simulations succeeding, the supply series at `t1` is pointwise
greater-or-equal the supply series at `t2`. -/
theorem simulateHPA_monotone_of_acl_within_step
    (redLineUtil acl : ℚ) (t1 t2 : ℤ) (pp : ℚ) (maxR minR : ℤ)
    (l s1 s2 : List DataPoint) (m1 m2 : ℤ)
    (hpp : 0 < pp) (hrl : 0 ≤ redLineUtil)
    (hval : ∀ dp ∈ l, 0 ≤ dp.value)
    (hgap : List.Chain' (fun a b => a.timestamp + acl ≤ b.timestamp) l)
    (ht : t1 < t2)
    (h1 : simulateHPA redLineUtil l acl t1 pp maxR minR = some (s1, m1))
    (h2 : simulateHPA redLineUtil l acl t2 pp maxR minR = some (s2, m2)) :
    List.Forall₂ (fun a b => b.value ≤ a.value) s1 s2 := by
  cases l with
  | nil =>
    simp only [simulateHPA] at h1 h2
    have e1 := Option.some.inj h1
    have e2 := Option.some.inj h2
    have hs1 : s1 = [] := (congrArg Prod.fst e1).symm
    have hs2 : s2 = [] := (congrArg Prod.fst e2).symm
    rw [hs1, hs2]
    exact List.Forall₂.nil
  | cons dp0 rest =>
    simp only [simulateHPA] at h1 h2
    by_cases hc1 : effectiveTarget t1 < 1 ∨ 100 < effectiveTarget t1
    · rw [if_pos hc1] at h1
      exact absurd h1 (by simp)
    by_cases hc2 : effectiveTarget t2 < 1 ∨ 100 < effectiveTarget t2
    · rw [if_pos hc2] at h2
      exact absurd h2 (by simp)
    rw [if_neg hc1] at h1
    rw [if_neg hc2] at h2
    push_neg at hc1
    have he1 : 1 ≤ effectiveTarget t1 := not_lt.mp (fun hlt => absurd hlt (by omega))
    have he12 : effectiveTarget t1 ≤ effectiveTarget t2 := effectiveTarget_mono t1 t2 ht.le
    have hv0 : 0 ≤ dp0.value := hval dp0 (List.mem_cons_self dp0 rest)
    have hvrest : ∀ dp ∈ rest, 0 ≤ dp.value := fun dp hdp => hval dp (List.mem_cons_of_mem dp0 hdp)
    have hrw1 : (simLoop redLineUtil acl (effectiveTarget t1) pp maxR minR rest
        (clampedReplicas (effectiveTarget t1) pp maxR minR dp0.value * pp) []
        (rawReplicas (effectiveTarget t1) pp dp0.value)).1 =
        supplySeries redLineUtil (effectiveTarget t1) pp maxR minR
          (clampedReplicas (effectiveTarget t1) pp maxR minR dp0.value * pp) rest :=
      simLoop_eq_supplySeries redLineUtil acl (effectiveTarget t1) pp maxR minR rest
        _ _ _ [] (by simp) (fun dp1 _h1 tm htm => absurd htm (List.not_mem_nil tm)) hgap.tail
    have hrw2 : (simLoop redLineUtil acl (effectiveTarget t2) pp maxR minR rest
        (clampedReplicas (effectiveTarget t2) pp maxR minR dp0.value * pp) []
        (rawReplicas (effectiveTarget t2) pp dp0.value)).1 =
        supplySeries redLineUtil (effectiveTarget t2) pp maxR minR
          (clampedReplicas (effectiveTarget t2) pp maxR minR dp0.value * pp) rest :=
      simLoop_eq_supplySeries redLineUtil acl (effectiveTarget t2) pp maxR minR rest
        _ _ _ [] (by simp) (fun dp1 _h1 tm htm => absurd htm (List.not_mem_nil tm)) hgap.tail
    have hs1 : s1 = ⟨dp0.timestamp,
        clampedReplicas (effectiveTarget t1) pp maxR minR dp0.value * pp * redLineUtil⟩ ::
        supplySeries redLineUtil (effectiveTarget t1) pp maxR minR
          (clampedReplicas (effectiveTarget t1) pp maxR minR dp0.value * pp) rest := by
      have := congrArg Prod.fst (Option.some.inj h1)
      rw [← hrw1]
      exact this.symm
    have hs2 : s2 = ⟨dp0.timestamp,
        clampedReplicas (effectiveTarget t2) pp maxR minR dp0.value * pp * redLineUtil⟩ ::
        supplySeries redLineUtil (effectiveTarget t2) pp maxR minR
          (clampedReplicas (effectiveTarget t2) pp maxR minR dp0.value * pp) rest := by
      have := congrArg Prod.fst (Option.some.inj h2)
      rw [← hrw2]
      exact this.symm
    rw [hs1, hs2]
    have hEE : clampedReplicas (effectiveTarget t2) pp maxR minR dp0.value * pp ≤
        clampedReplicas (effectiveTarget t1) pp maxR minR dp0.value * pp :=
      mul_le_mul_of_nonneg_right
        (clampedReplicas_anti (effectiveTarget t1) (effectiveTarget t2) pp dp0.value maxR minR
          he1 he12 hpp hv0) hpp.le
    exact List.Forall₂.cons (mul_le_mul_of_nonneg_right hEE hrl)
      (supplySeries_anti redLineUtil (effectiveTarget t1) (effectiveTarget t2) pp maxR minR
        he1 he12 hpp hrl rest _ _ hEE hvrest)

/-- Claim C1 counterexample: with `acl = 1.5` steps the run at target 54
clears its pending upscale timer at the step-2 downscale while the run at
target 55 keeps it, so at index 3 the lower target supplies 3 < 5 and
pointwise dominance fails. -/
theorem simulateHPA_not_pointwise_monotone_counterexample :
    simulateHPA 1 [⟨0, 6/5⟩, ⟨1, 3⟩, ⟨2, 3/2⟩, ⟨3, 3⟩] (3/2) 54 1 100 1
      = some ([⟨0, 3⟩, ⟨1, 3⟩, ⟨2, 3⟩, ⟨3, 3⟩], 3) ∧
    simulateHPA 1 [⟨0, 6/5⟩, ⟨1, 3⟩, ⟨2, 3/2⟩, ⟨3, 3⟩] (3/2) 55 1 100 1
      = some ([⟨0, 2⟩, ⟨1, 2⟩, ⟨2, 2⟩, ⟨3, 5⟩], 2) ∧
    ¬ List.Forall₂ (fun a b => b.value ≤ a.value)
        [(⟨0, 3⟩ : DataPoint), ⟨1, 3⟩, ⟨2, 3⟩, ⟨3, 3⟩]
        [(⟨0, 2⟩ : DataPoint), ⟨1, 2⟩, ⟨2, 2⟩, ⟨3, 5⟩] := by
  refine ⟨?_, ?_, ?_⟩ <;> with_unfolding_all decide

/-- Claim C1 witness: a two-point series with `acl` equal to the step,
targets 20 < 40; supply at the lower target dominates pointwise. -/
theorem simulateHPA_monotone_of_acl_within_step_witness :
    List.Forall₂ (fun a b => b.value ≤ a.value)
      [(⟨0, 5⟩ : DataPoint), ⟨1, 5⟩] [(⟨0, 3⟩ : DataPoint), ⟨1, 3⟩] :=
  simulateHPA_monotone_of_acl_within_step 1 1 20 40 1 10 1
    [⟨0, 1⟩, ⟨1, 2⟩] [⟨0, 5⟩, ⟨1, 5⟩] [⟨0, 3⟩, ⟨1, 3⟩] 5 3
    (by with_unfolding_all decide) (by with_unfolding_all decide)
    (by with_unfolding_all decide)
    (List.chain'_cons.mpr ⟨by with_unfolding_all decide, List.chain'_singleton _⟩)
    (by with_unfolding_all decide)
    (by with_unfolding_all decide) (by with_unfolding_all decide)

theorem noBreachAt_eq_probe (redLineUtil : ℚ) (dataPoints : List DataPoint) (acl : ℚ)
    (pp : ℚ) (maxR m t : ℤ) :
    noBreachAt redLineUtil dataPoints acl pp maxR m t =
      probeNoBreach (fun u => simulateHPA redLineUtil dataPoints acl u pp maxR m)
        dataPoints t := by
  cases h : simulateHPA redLineUtil dataPoints acl t pp maxR m <;>
    simp [noBreachAt, probeNoBreach, h]

theorem mid_le (low high : ℤ) (h : low ≤ high) :
    low ≤ low + goIntDiv (high - low) 2 ∧ low + goIntDiv (high - low) 2 ≤ high := by
  have h2 : 0 ≤ Int.tdiv (high - low) 2 := Int.tdiv_nonneg (by omega) (by omega)
  have h3 : Int.tdiv (high - low) 2 ≤ high - low := by
    rw [Int.tdiv_eq_ediv (by omega) (by omega)]
    exact Int.ediv_le_self _ (by omega)
  unfold goIntDiv
  omega

theorem innerSearchGo_high_le (f : ℤ → Option (List DataPoint × ℤ)) (orig : List DataPoint) :
    ∀ (fuel : Nat) (low high : ℤ) (st : List DataPoint × ℤ) (h : ℤ)
      (st1 : List DataPoint × ℤ),
      innerSearchGo f orig fuel low high st = some (h, st1) → h ≤ high := by
  intro fuel
  induction fuel with
  | zero =>
    intro low high st h st1 heq
    simp only [innerSearchGo] at heq
    exact le_of_eq (congrArg Prod.fst (Option.some.inj heq)).symm
  | succ fuel ih =>
    intro low high st h st1 heq
    simp only [innerSearchGo] at heq
    by_cases hlh : low ≤ high
    · rw [if_pos hlh] at heq
      obtain ⟨hml, hmh⟩ := mid_le low high hlh
      rcases hf : f (low + goIntDiv (high - low) 2) with _ | st2
      · simp only [hf] at heq
        exact Option.noConfusion heq
      · simp only [hf] at heq
        by_cases hb : hasNoBreachOccurred orig st2.1
        · rw [if_pos hb] at heq
          exact le_trans (ih _ high st2 h st1 heq) le_rfl
        · rw [if_neg hb] at heq
          exact le_trans (ih low _ st2 h st1 heq) (by omega)
    · rw [if_neg hlh] at heq
      exact le_of_eq (congrArg Prod.fst (Option.some.inj heq)).symm

theorem innerSearchGo_provenance (f : ℤ → Option (List DataPoint × ℤ))
    (orig : List DataPoint) :
    ∀ (fuel : Nat) (low high : ℤ) (st : List DataPoint × ℤ) (h : ℤ)
      (st1 : List DataPoint × ℤ),
      innerSearchGo f orig fuel low high st = some (h, st1) →
      st1 = st ∨ ∃ u, f u = some st1 := by
  intro fuel
  induction fuel with
  | zero =>
    intro low high st h st1 heq
    simp only [innerSearchGo] at heq
    exact Or.inl (congrArg Prod.snd (Option.some.inj heq)).symm
  | succ fuel ih =>
    intro low high st h st1 heq
    simp only [innerSearchGo] at heq
    by_cases hlh : low ≤ high
    · rw [if_pos hlh] at heq
      rcases hf : f (low + goIntDiv (high - low) 2) with _ | st2
      · simp only [hf] at heq
        exact Option.noConfusion heq
      · simp only [hf] at heq
        by_cases hb : hasNoBreachOccurred orig st2.1
        · rw [if_pos hb] at heq
          rcases ih _ high st2 h st1 heq with h1 | h2
          · exact Or.inr ⟨_, h1 ▸ hf⟩
          · exact Or.inr h2
        · rw [if_neg hb] at heq
          rcases ih low _ st2 h st1 heq with h1 | h2
          · exact Or.inr ⟨_, h1 ▸ hf⟩
          · exact Or.inr h2
    · rw [if_neg hlh] at heq
      exact Or.inl (congrArg Prod.snd (Option.some.inj heq)).symm

theorem innerSearchGo_sound (f : ℤ → Option (List DataPoint × ℤ)) (orig : List DataPoint)
    (L H : ℤ)
    (hanti : ∀ t1 t2, L ≤ t1 → t1 ≤ t2 → t2 ≤ H →
      probeNoBreach f orig t2 = true → probeNoBreach f orig t1 = true) :
    ∀ (fuel : Nat) (low high : ℤ) (st : List DataPoint × ℤ) (h : ℤ)
      (st1 : List DataPoint × ℤ),
      innerSearchGo f orig fuel low high st = some (h, st1) →
      L ≤ low → high ≤ H → low ≤ high + 1 → (high + 1 - low).toNat ≤ fuel →
      low - 1 ≤ h ∧ h ≤ high ∧
        (low ≤ h → probeNoBreach f orig h = true) ∧
        (∀ u, h < u → u ≤ high → probeNoBreach f orig u = false) := by
  intro fuel
  induction fuel with
  | zero =>
    intro low high st h st1 heq hL hH hlh hfuel
    simp only [innerSearchGo] at heq
    have hh : high = h := congrArg Prod.fst (Option.some.inj heq)
    have hempty : high < low := by omega
    refine ⟨by omega, by omega, ?_, ?_⟩
    · intro hc; omega
    · intro u hu1 hu2; omega
  | succ fuel ih =>
    intro low high st h st1 heq hL hH hlh hfuel
    simp only [innerSearchGo] at heq
    by_cases hlh2 : low ≤ high
    · rw [if_pos hlh2] at heq
      obtain ⟨hml, hmh⟩ := mid_le low high hlh2
      set mid := low + goIntDiv (high - low) 2 with hmiddef
      rcases hf : f mid with _ | st2
      · simp only [hf] at heq
        exact Option.noConfusion heq
      · simp only [hf] at heq
        by_cases hb : hasNoBreachOccurred orig st2.1
        · rw [if_pos hb] at heq
          have hprobe : probeNoBreach f orig mid = true := by
            simp only [probeNoBreach, hf]
            exact hb
          obtain ⟨h1, h2, h3, h4⟩ := ih (mid + 1) high st2 h st1 heq (by omega) hH
            (by omega) (by omega)
          refine ⟨by omega, h2, ?_, h4⟩
          intro hlow2
          by_cases hcase : mid + 1 ≤ h
          · exact h3 hcase
          · have hhm : h = mid := by omega
            rw [hhm]
            exact hprobe
        · rw [if_neg hb] at heq
          have hprobe : probeNoBreach f orig mid = false := by
            simp only [probeNoBreach, hf]
            exact Bool.eq_false_iff.mpr hb
          obtain ⟨h1, h2, h3, h4⟩ := ih low (mid - 1) st2 h st1 heq hL (by omega)
            (by omega) (by omega)
          refine ⟨h1, by omega, h3, ?_⟩
          intro u hu1 hu2
          by_cases hum : u ≤ mid - 1
          · exact h4 u hu1 hum
          · cases hbool : probeNoBreach f orig u with
            | false => rfl
            | true =>
              have := hanti mid u (by omega) (by omega) (by omega) hbool
              rw [hprobe] at this
              exact absurd this (by decide)
    · rw [if_neg hlh2] at heq
      have hh : high = h := congrArg Prod.fst (Option.some.inj heq)
      refine ⟨by omega, by omega, ?_, ?_⟩
      · intro hc; omega
      · intro u hu1 hu2; omega

theorem innerSearch_sound (f : ℤ → Option (List DataPoint × ℤ)) (orig : List DataPoint)
    (L H : ℤ) (low high : ℤ) (st : List DataPoint × ℤ) (h : ℤ) (st1 : List DataPoint × ℤ)
    (hanti : ∀ t1 t2, L ≤ t1 → t1 ≤ t2 → t2 ≤ H →
      probeNoBreach f orig t2 = true → probeNoBreach f orig t1 = true)
    (heq : innerSearch f orig low high st = some (h, st1))
    (hL : L ≤ low) (hH : high ≤ H) (hlh : low ≤ high + 1) :
    low - 1 ≤ h ∧ h ≤ high ∧
      (low ≤ h → probeNoBreach f orig h = true) ∧
      (∀ u, h < u → u ≤ high → probeNoBreach f orig u = false) :=
  innerSearchGo_sound f orig L H hanti (high + 1 - low).toNat low high st h st1 heq
    hL hH hlh le_rfl

theorem simLoop_at_floor_max (redLineUtil acl : ℚ) (target : ℤ) (pp : ℚ) (maxR : ℤ) :
    ∀ (l : List DataPoint) (calcMin : ℚ) (x : DataPoint),
      x ∈ (simLoop redLineUtil acl target pp maxR maxR l ((maxR : ℚ) * pp) [] calcMin).1 →
      x.value = (maxR : ℚ) * pp * redLineUtil := by
  intro l
  induction l with
  | nil => intro calcMin x hx; exact absurd hx (List.not_mem_nil x)
  | cons dp rest ih =>
    intro calcMin x hx
    have hclamp : clampedReplicas target pp maxR maxR dp.value = (maxR : ℚ) :=
      min_eq_left (le_max_left _ _)
    simp only [simLoop, consumeTimers, hclamp] at hx
    rw [if_neg (lt_irrefl ((maxR : ℚ) * pp))] at hx
    rcases List.mem_cons.mp hx with rfl | hx2
    · rfl
    · exact ih _ x hx2

theorem simulateHPA_at_floor_max (redLineUtil : ℚ) (l : List DataPoint) (acl : ℚ)
    (t : ℤ) (pp : ℚ) (maxR : ℤ) (s : List DataPoint) (cm : ℤ)
    (heq : simulateHPA redLineUtil l acl t pp maxR maxR = some (s, cm)) :
    ∀ x ∈ s, x.value = (maxR : ℚ) * pp * redLineUtil := by
  cases l with
  | nil =>
    simp only [simulateHPA] at heq
    have hs : s = [] := (congrArg Prod.fst (Option.some.inj heq)).symm
    rw [hs]
    intro x hx
    exact absurd hx (List.not_mem_nil x)
  | cons dp0 rest =>
    simp only [simulateHPA] at heq
    by_cases hc : effectiveTarget t < 1 ∨ 100 < effectiveTarget t
    · rw [if_pos hc] at heq
      exact absurd heq (by simp)
    · rw [if_neg hc] at heq
      have hclamp : clampedReplicas (effectiveTarget t) pp maxR maxR dp0.value = (maxR : ℚ) :=
        min_eq_left (le_max_left _ _)
      rw [hclamp] at heq
      rw [Option.some.injEq, Prod.mk.injEq] at heq
      obtain ⟨hs, _hcm⟩ := heq
      subst hs
      intro x hx
      rcases List.mem_cons.mp hx with rfl | hx2
      · rfl
      · exact simLoop_at_floor_max redLineUtil acl (effectiveTarget t) pp maxR rest _ x hx2

theorem calculateSavings_eq_zero (redLineUtil : ℚ) (maxR : ℤ) (s : List DataPoint)
    (pp : ℚ) (hrl : redLineUtil ≠ 0)
    (hall : ∀ x ∈ s, x.value = (maxR : ℚ) * pp * redLineUtil) :
    calculateSavings redLineUtil maxR s pp = 0 := by
  unfold calculateSavings
  have hzero : (s.map fun dp => (maxR : ℚ) * pp - dp.value / redLineUtil).sum = 0 := by
    refine List.sum_eq_zero ?_
    intro q hq
    rcases List.mem_map.mp hq with ⟨dp, hdp, rfl⟩
    have hcancel : ((maxR : ℚ) * pp * redLineUtil) / redLineUtil = (maxR : ℚ) * pp :=
      mul_div_cancel_right₀ _ hrl
    rw [hall dp hdp, hcancel]
    ring
  rw [hzero]
  simp

theorem mem_mRange (maxR m : ℤ) (hm : m ∈ mRange maxR) : 1 ≤ m ∧ m ≤ maxR := by
  unfold mRange at hm
  simp only [List.mem_map, List.mem_range] at hm
  obtain ⟨i, hi, rfl⟩ := hm
  omega

theorem findOptLoop_bounds (rl : ℚ) (dps : List DataPoint) (acl : ℚ) (minT maxT : ℤ)
    (pp : ℚ) (maxR : ℤ) :
    ∀ (ms : List ℤ) (st st1 : SearchState),
      (∀ m ∈ ms, 1 ≤ m ∧ m ≤ maxR) →
      (st = ⟨0, 0, 0⟩ ∨ (1 ≤ st.optimalMin ∧ st.optimalMin ≤ maxR ∧
        minT ≤ st.optimalTargetThreshold ∧ st.optimalTargetThreshold ≤ maxT)) →
      findOptLoop rl dps acl minT maxT pp maxR ms st = .ok st1 →
      (st1 = ⟨0, 0, 0⟩ ∨ (1 ≤ st1.optimalMin ∧ st1.optimalMin ≤ maxR ∧
        minT ≤ st1.optimalTargetThreshold ∧ st1.optimalTargetThreshold ≤ maxT)) := by
  intro ms
  induction ms with
  | nil =>
    intro st st1 _ hinv heq
    injection heq with h
    subst h
    exact hinv
  | cons m ms ih =>
    intro st st1 hms hinv heq
    simp only [findOptLoop] at heq
    cases hinner : innerSearch (fun target => simulateHPA rl dps acl target pp maxR m)
        dps minT maxT ([], 0) with
    | none =>
      simp only [hinner] at heq
      exact Except.noConfusion heq
    | some out =>
      obtain ⟨high, sl, cm⟩ := out
      simp only [hinner] at heq
      by_cases hcond : minT ≤ high ∧ cm ≤ m ∧ sl ≠ [] ∧
          st.savings ≤ calculateSavings rl maxR sl pp
      · rw [if_pos hcond] at heq
        refine ih _ st1 (fun x hx => hms x (List.mem_cons_of_mem m hx)) ?_ heq
        right
        have hm := hms m (List.mem_cons_self m ms)
        have hhigh := innerSearchGo_high_le
          (fun target => simulateHPA rl dps acl target pp maxR m) dps
          (maxT + 1 - minT).toNat minT maxT ([], 0) high (sl, cm) hinner
        exact ⟨hm.1, hm.2, hcond.1, hhigh⟩
      · rw [if_neg hcond] at heq
        exact ih _ st1 (fun x hx => hms x (List.mem_cons_of_mem m hx)) hinv heq

theorem findOptLoop_min_ne_max (rl : ℚ) (dps : List DataPoint) (acl : ℚ) (minT maxT : ℤ)
    (pp : ℚ) (maxR : ℤ) (hrl : rl ≠ 0) :
    ∀ (ms : List ℤ) (st st1 : SearchState),
      (st.savings ≠ 0 → st.optimalMin ≠ maxR) →
      findOptLoop rl dps acl minT maxT pp maxR ms st = .ok st1 →
      (st1.savings ≠ 0 → st1.optimalMin ≠ maxR) := by
  intro ms
  induction ms with
  | nil =>
    intro st st1 hinv heq
    injection heq with h
    subst h
    exact hinv
  | cons m ms ih =>
    intro st st1 hinv heq
    simp only [findOptLoop] at heq
    cases hinner : innerSearch (fun target => simulateHPA rl dps acl target pp maxR m)
        dps minT maxT ([], 0) with
    | none =>
      simp only [hinner] at heq
      exact Except.noConfusion heq
    | some out =>
      obtain ⟨high, sl, cm⟩ := out
      simp only [hinner] at heq
      by_cases hcond : minT ≤ high ∧ cm ≤ m ∧ sl ≠ [] ∧
          st.savings ≤ calculateSavings rl maxR sl pp
      · rw [if_pos hcond] at heq
        refine ih _ st1 ?_ heq
        by_cases hm : m = maxR
        · -- the floor equals the cap: every probed supply point sits at the cap,
          -- so the recorded savings are zero and the implication is vacuous
          have hinner2 := hm ▸ hinner
          rcases innerSearchGo_provenance
              (fun target => simulateHPA rl dps acl target pp maxR maxR) dps
              (maxT + 1 - minT).toNat minT maxT ([], 0) high (sl, cm) hinner2 with hcase | hcase
          · exact absurd (congrArg Prod.fst hcase) hcond.2.2.1
          · obtain ⟨u, hu⟩ := hcase
            have hall := simulateHPA_at_floor_max rl dps acl u pp maxR sl cm hu
            have hzero : calculateSavings rl maxR sl pp = 0 :=
              calculateSavings_eq_zero rl maxR sl pp hrl hall
            intro hs
            exact absurd hzero hs
        · intro _
          exact hm
      · rw [if_neg hcond] at heq
        exact ih _ st1 hinv heq

theorem findOptimal_min_ne_max (rl : ℚ) (dps : List DataPoint) (acl : ℚ) (minT maxT : ℤ)
    (pp : ℚ) (maxR : ℤ) (t mn mx : ℤ) (hrl : rl ≠ 0)
    (heq : findOptimalHPAConfigurations rl dps acl minT maxT pp maxR = .ok (t, mn, mx)) :
    mn ≠ mx ∧ mx = maxR := by
  unfold findOptimalHPAConfigurations at heq
  cases hloop : findOptLoop rl dps acl minT maxT pp maxR (mRange maxR) ⟨0, 0, 0⟩ with
  | error e =>
    simp only [hloop] at heq
    exact Except.noConfusion heq
  | ok st =>
    simp only [hloop] at heq
    by_cases hfin : st.optimalTargetThreshold < minT ∨ st.savings = 0
    · rw [if_pos hfin] at heq
      exact Except.noConfusion heq
    · rw [if_neg hfin] at heq
      rw [Except.ok.injEq, Prod.mk.injEq, Prod.mk.injEq] at heq
      obtain ⟨hT, hM, hMax⟩ := heq
      push_neg at hfin
      have hne := findOptLoop_min_ne_max rl dps acl minT maxT pp maxR hrl (mRange maxR)
        ⟨0, 0, 0⟩ st (fun hs => absurd rfl hs) hloop hfin.2
      rw [← hM, ← hMax]
      exact ⟨hne, rfl⟩

theorem findOptLoop_characterization (rl : ℚ) (dps : List DataPoint) (acl : ℚ)
    (minT maxT : ℤ) (pp : ℚ) (maxR : ℤ)
    (hanti : ∀ m t1 t2, 1 ≤ m → m ≤ maxR → minT ≤ t1 → t1 ≤ t2 → t2 ≤ maxT →
      noBreachAt rl dps acl pp maxR m t2 = true → noBreachAt rl dps acl pp maxR m t1 = true) :
    ∀ (ms : List ℤ) (st st1 : SearchState),
      (∀ m ∈ ms, 1 ≤ m ∧ m ≤ maxR) →
      (st = ⟨0, 0, 0⟩ ∨ (1 ≤ st.optimalMin ∧ st.optimalMin ≤ maxR ∧
        minT ≤ st.optimalTargetThreshold ∧ st.optimalTargetThreshold ≤ maxT ∧
        noBreachAt rl dps acl pp maxR st.optimalMin st.optimalTargetThreshold = true ∧
        (∀ u, st.optimalTargetThreshold < u → u ≤ maxT →
          noBreachAt rl dps acl pp maxR st.optimalMin u = false))) →
      findOptLoop rl dps acl minT maxT pp maxR ms st = .ok st1 →
      (st1 = ⟨0, 0, 0⟩ ∨ (1 ≤ st1.optimalMin ∧ st1.optimalMin ≤ maxR ∧
        minT ≤ st1.optimalTargetThreshold ∧ st1.optimalTargetThreshold ≤ maxT ∧
        noBreachAt rl dps acl pp maxR st1.optimalMin st1.optimalTargetThreshold = true ∧
        (∀ u, st1.optimalTargetThreshold < u → u ≤ maxT →
          noBreachAt rl dps acl pp maxR st1.optimalMin u = false))) := by
  intro ms
  induction ms with
  | nil =>
    intro st st1 _ hinv heq
    injection heq with h
    subst h
    exact hinv
  | cons m ms ih =>
    intro st st1 hms hinv heq
    simp only [findOptLoop] at heq
    cases hinner : innerSearch (fun target => simulateHPA rl dps acl target pp maxR m)
        dps minT maxT ([], 0) with
    | none =>
      simp only [hinner] at heq
      exact Except.noConfusion heq
    | some out =>
      obtain ⟨high, sl, cm⟩ := out
      simp only [hinner] at heq
      by_cases hcond : minT ≤ high ∧ cm ≤ m ∧ sl ≠ [] ∧
          st.savings ≤ calculateSavings rl maxR sl pp
      · rw [if_pos hcond] at heq
        refine ih _ st1 (fun x hx => hms x (List.mem_cons_of_mem m hx)) ?_ heq
        right
        have hm := hms m (List.mem_cons_self m ms)
        have hhigh := innerSearchGo_high_le
          (fun target => simulateHPA rl dps acl target pp maxR m) dps
          (maxT + 1 - minT).toNat minT maxT ([], 0) high (sl, cm) hinner
        have hanti2 : ∀ t1 t2, minT ≤ t1 → t1 ≤ t2 → t2 ≤ maxT →
            probeNoBreach (fun target => simulateHPA rl dps acl target pp maxR m) dps t2
              = true →
            probeNoBreach (fun target => simulateHPA rl dps acl target pp maxR m) dps t1
              = true := by
          intro t1 t2 ha hb hc hp
          rw [← noBreachAt_eq_probe] at hp ⊢
          exact hanti m t1 t2 hm.1 hm.2 ha hb hc hp
        obtain ⟨_hs1, _hs2, hs3, hs4⟩ := innerSearch_sound
          (fun target => simulateHPA rl dps acl target pp maxR m) dps minT maxT minT maxT
          ([], 0) high (sl, cm) hanti2 hinner le_rfl le_rfl
          (le_trans hcond.1 (by omega))
        refine ⟨hm.1, hm.2, hcond.1, hhigh, ?_, ?_⟩
        · rw [noBreachAt_eq_probe]
          exact hs3 hcond.1
        · intro u hu1 hu2
          rw [noBreachAt_eq_probe]
          exact hs4 u hu1 hu2
      · rw [if_neg hcond] at heq
        exact ih _ st1 (fun x hx => hms x (List.mem_cons_of_mem m hx)) hinv heq

/-- Claim C3 (amended): when breach-freedom is antitone in the target over
`[minTarget, maxTarget]` (which positive lag can violate) and
`1 ≤ minTarget`, every successful result `(t, m, M)` of
`findOptimalHPAConfigurations` has `M = maxReplicas`,
`1 ≤ m ≤ maxReplicas`, `minTarget ≤ t ≤ maxTarget`, the simulation at
`(t, m)` is breach-free, and every larger target in `(t, maxTarget]`
breaches — i.e. the binary search does return the largest no-breach
target for the winning floor.  (As the counterexample shows, the claim's
further assertion that candidates are filtered and scored by the
simulation at exactly `t` is false: the source uses the binary search's
last probe, which may be the breaching probe at `t + 1`.) -/
theorem findOptimal_success_characterization (rl : ℚ) (dps : List DataPoint) (acl : ℚ)
    (minT maxT : ℤ) (pp : ℚ) (maxR : ℤ) (t mn mx : ℤ)
    (hminT : 1 ≤ minT)
    (hanti : ∀ m t1 t2, 1 ≤ m → m ≤ maxR → minT ≤ t1 → t1 ≤ t2 → t2 ≤ maxT →
      noBreachAt rl dps acl pp maxR m t2 = true → noBreachAt rl dps acl pp maxR m t1 = true)
    (heq : findOptimalHPAConfigurations rl dps acl minT maxT pp maxR = .ok (t, mn, mx)) :
    mx = maxR ∧ 1 ≤ mn ∧ mn ≤ maxR ∧ minT ≤ t ∧ t ≤ maxT ∧
      noBreachAt rl dps acl pp maxR mn t = true ∧
      (∀ u, t < u → u ≤ maxT → noBreachAt rl dps acl pp maxR mn u = false) := by
  unfold findOptimalHPAConfigurations at heq
  cases hloop : findOptLoop rl dps acl minT maxT pp maxR (mRange maxR) ⟨0, 0, 0⟩ with
  | error e =>
    simp only [hloop] at heq
    exact Except.noConfusion heq
  | ok st =>
    simp only [hloop] at heq
    by_cases hfin : st.optimalTargetThreshold < minT ∨ st.savings = 0
    · rw [if_pos hfin] at heq
      exact Except.noConfusion heq
    · rw [if_neg hfin] at heq
      rw [Except.ok.injEq, Prod.mk.injEq, Prod.mk.injEq] at heq
      obtain ⟨hT, hM, hMax⟩ := heq
      push_neg at hfin
      rcases findOptLoop_characterization rl dps acl minT maxT pp maxR hanti (mRange maxR)
          ⟨0, 0, 0⟩ st (fun x hx => mem_mRange maxR x hx) (Or.inl rfl) hloop with hzero | hgood
      · rw [hzero] at hfin
        exact absurd hfin.1 (by simp; omega)
      · obtain ⟨g1, g2, g3, g4, g5, g6⟩ := hgood
        subst hT hM hMax
        exact ⟨rfl, g1, g2, g3, g4, g5, g6⟩

/-- Claim C3 counterexample: on the one-point series (0, 0.885) with
`redLineUtil = 0.8`, targets `[80, 81]`, `perPod = 1`, `maxReplicas = 2`,
the source records the `m = 1` candidate using the last (breaching) probe
at target 81 (observedMin 1, savings 50) and answers `(80, 1, 2)`, while
the algorithm described by the claim — filtering on the observedMin of the
simulation at exactly `t = 80` (which is 2 > 1) and scoring at `t` —
finds no positive-savings candidate and fails with UnableToRecommend. -/
theorem findOptimal_deviates_from_claim_counterexample :
    findOptimalHPAConfigurations (4/5) [⟨0, 177/200⟩] 0 80 81 1 2 = .ok (80, 1, 2) ∧
    findOptimalPerClaim (4/5) [⟨0, 177/200⟩] 0 80 81 1 2 = .error .unableToRecommend := by
  constructor
  · with_unfolding_all decide
  · with_unfolding_all decide

/-- Claim C3 witness: at `minTarget = maxTarget = 50` antitonicity is
trivial and the concrete search succeeds with `(50, 2, 3)`; the theorem
yields breach-freedom at the returned configuration. -/
theorem findOptimal_success_characterization_witness :
    noBreachAt 1 [⟨0, 1⟩] 0 1 3 2 50 = true :=
  (findOptimal_success_characterization 1 [⟨0, 1⟩] 0 50 50 1 3 50 2 3
    (by omega)
    (fun m t1 t2 _ _ h1 h2 h3 hp => by
      have ht1 : t1 = 50 := le_antisymm (le_trans h2 h3) h1
      have ht2 : t2 = 50 := le_antisymm h3 (le_trans h1 h2)
      rw [ht1, ← ht2]
      exact hp)
    (by with_unfolding_all decide)).2.2.2.2.2.1

/-- Claim C4: with the series fetched and the workload cap known (and a
non-zero red-line), `Recommend` returns the no-op configuration
`{min = max = workloadMaxReplicas, target = minTarget}` with a nil error
exactly when the fetched series fails the data-sufficiency gate, or the
transformed series, lag and per-pod resources are all fetched and
`findOptimalHPAConfigurations` fails with UnableToRecommend; every other
outcome is either the found optimal configuration (whose min is provably
different from the cap) or a non-nil error. -/
theorem Recommend_noop_iff (ε : Type) (rl wSec sSec : ℚ) (minT maxT thr : ℤ)
    (scrapeRes : Except ε (List DataPoint)) (maxPodsRes : Except ε ℤ)
    (transformers : List (List DataPoint → Except ε (List DataPoint)))
    (aclRes perPodRes : Except ε ℚ) (dps : List DataPoint) (maxR : ℤ)
    (hscrape : scrapeRes = .ok dps) (hmax : maxPodsRes = .ok maxR) (hrl : rl ≠ 0) :
    Recommend rl wSec sSec minT maxT thr scrapeRes maxPodsRes transformers aclRes perPodRes
      = .ok ⟨maxR, maxR, minT⟩ ↔
    (isMetricsAboveThreshold wSec sSec thr dps = false ∨
      ∃ dps1 acl pp, applyTransformers transformers dps = .ok dps1 ∧
        aclRes = .ok acl ∧ perPodRes = .ok pp ∧
        findOptimalHPAConfigurations rl dps1 acl minT maxT pp maxR
          = .error .unableToRecommend) := by
  subst hscrape hmax
  by_cases hth : isMetricsAboveThreshold wSec sSec thr dps = false
  · simp only [Recommend, if_pos hth]
    exact ⟨fun _ => Or.inl hth, fun _ => trivial⟩
  · simp only [Recommend, if_neg hth]
    cases htr : applyTransformers transformers dps with
    | error e =>
      simp only [htr]
      constructor
      · intro habs
        exact Except.noConfusion habs
      · rintro (hc | ⟨dps1, acl, pp, hc1, _hc2, _hc3, _hc4⟩)
        · exact absurd hc hth
        · exact Except.noConfusion hc1
    | ok dps1 =>
      simp only [htr]
      cases aclRes with
      | error e =>
        constructor
        · intro habs
          exact Except.noConfusion habs
        · rintro (hc | ⟨dps1', acl', pp', _hc1, hc2, _hc3, _hc4⟩)
          · exact absurd hc hth
          · exact Except.noConfusion hc2
      | ok acl =>
        cases perPodRes with
        | error e =>
          constructor
          · intro habs
            exact Except.noConfusion habs
          · rintro (hc | ⟨dps1', acl', pp', _hc1, _hc2, hc3, _hc4⟩)
            · exact absurd hc hth
            · exact Except.noConfusion hc3
        | ok pp =>
          cases hfind : findOptimalHPAConfigurations rl dps1 acl minT maxT pp maxR with
          | error fe =>
            cases fe with
            | unableToRecommend =>
              simp only [hfind]
              exact ⟨fun _ => Or.inr ⟨dps1, acl, pp, rfl, rfl, rfl, hfind⟩, fun _ => trivial⟩
            | simulationError =>
              simp only [hfind]
              constructor
              · intro habs
                exact Except.noConfusion habs
              · rintro (hc | ⟨dps1', acl', pp', hc1, hc2, hc3, hc4⟩)
                · exact absurd hc hth
                · injection hc1 with h1
                  injection hc2 with h2
                  injection hc3 with h3
                  subst h1
                  subst h2
                  subst h3
                  rw [hfind] at hc4
                  injection hc4 with h4
                  exact FindOptError.noConfusion h4
          | ok triple =>
            obtain ⟨t, mn, mx⟩ := triple
            simp only [hfind]
            have hne := findOptimal_min_ne_max rl dps1 acl minT maxT pp maxR t mn mx hrl hfind
            constructor
            · intro habs
              rw [Except.ok.injEq, HPAConfiguration.mk.injEq] at habs
              obtain ⟨ha1, ha2, _ha3⟩ := habs
              exact absurd (ha1.trans ha2.symm) hne.1
            · rintro (hc | ⟨dps1', acl', pp', hc1, hc2, hc3, hc4⟩)
              · exact absurd hc hth
              · injection hc1 with h1
                injection hc2 with h2
                injection hc3 with h3
                subst h1
                subst h2
                subst h3
                rw [hfind] at hc4
                exact Except.noConfusion hc4

/-- Claim C4 witness: an empty series under a 50 percent threshold takes
the insufficient-data branch of the iff. -/
theorem Recommend_noop_iff_witness :
    Recommend 1 3600 60 10 60 50 (Except.ok [] : Except Unit (List DataPoint))
        (Except.ok 5) [] (Except.ok 0) (Except.ok 1) = .ok ⟨5, 5, 10⟩ :=
  (Recommend_noop_iff Unit 1 3600 60 10 60 50 (Except.ok []) (Except.ok 5) [] (Except.ok 0)
    (Except.ok 1) [] 5 rfl rfl (by norm_num)).mpr
    (Or.inl (by with_unfolding_all decide))

/-- Claim C7 (amended): every configuration produced by `Recommend`
satisfies `1 ≤ min ≤ max` and `target ∈ [minTarget, maxTarget]`, provided
the workload cap obtained from `getMaxPods` is at least 1 and
`1 ≤ minTarget ≤ maxTarget`.  (Without the cap hypothesis the claim fails:
`getMaxPods` may fall back to a zero replica count, see the
counterexample.) -/
theorem Recommend_invariant_of_bounds (ε : Type) (rl wSec sSec : ℚ) (minT maxT thr : ℤ)
    (scrapeRes : Except ε (List DataPoint)) (maxPodsRes : Except ε ℤ)
    (transformers : List (List DataPoint → Except ε (List DataPoint)))
    (aclRes perPodRes : Except ε ℚ) (dps : List DataPoint) (maxR : ℤ)
    (cfg : HPAConfiguration)
    (hscrape : scrapeRes = .ok dps) (hmax : maxPodsRes = .ok maxR)
    (hmaxR : 1 ≤ maxR) (hminT : 1 ≤ minT) (hTT : minT ≤ maxT)
    (heq : Recommend rl wSec sSec minT maxT thr scrapeRes maxPodsRes transformers aclRes
      perPodRes = .ok cfg) :
    1 ≤ cfg.Min ∧ cfg.Min ≤ cfg.Max ∧ minT ≤ cfg.TargetMetricValue ∧
      cfg.TargetMetricValue ≤ maxT := by
  subst hscrape hmax
  simp only [Recommend] at heq
  by_cases hth : isMetricsAboveThreshold wSec sSec thr dps = false
  · rw [if_pos hth] at heq
    injection heq with h
    subst h
    exact ⟨hmaxR, le_rfl, le_rfl, hTT⟩
  · rw [if_neg hth] at heq
    cases htr : applyTransformers transformers dps with
    | error e =>
      simp only [htr] at heq
      exact Except.noConfusion heq
    | ok dps1 =>
      simp only [htr] at heq
      cases aclRes with
      | error e =>
        simp only [] at heq
        exact Except.noConfusion heq
      | ok acl =>
        cases perPodRes with
        | error e =>
          simp only [] at heq
          exact Except.noConfusion heq
        | ok pp =>
          cases hfind : findOptimalHPAConfigurations rl dps1 acl minT maxT pp maxR with
          | error fe =>
            cases fe with
            | unableToRecommend =>
              simp only [hfind] at heq
              injection heq with h
              subst h
              exact ⟨hmaxR, le_rfl, le_rfl, hTT⟩
            | simulationError =>
              simp only [hfind] at heq
              exact Except.noConfusion heq
          | ok triple =>
            obtain ⟨t, mn, mx⟩ := triple
            simp only [hfind] at heq
            injection heq with h
            subst h
            unfold findOptimalHPAConfigurations at hfind
            cases hloop : findOptLoop rl dps1 acl minT maxT pp maxR (mRange maxR)
                ⟨0, 0, 0⟩ with
            | error e =>
              simp only [hloop] at hfind
              exact Except.noConfusion hfind
            | ok st =>
              simp only [hloop] at hfind
              by_cases hfin : st.optimalTargetThreshold < minT ∨ st.savings = 0
              · rw [if_pos hfin] at hfind
                exact Except.noConfusion hfind
              · rw [if_neg hfin] at hfind
                rw [Except.ok.injEq, Prod.mk.injEq, Prod.mk.injEq] at hfind
                obtain ⟨hT, hM, hMax⟩ := hfind
                push_neg at hfin
                rcases findOptLoop_bounds rl dps1 acl minT maxT pp maxR (mRange maxR)
                    ⟨0, 0, 0⟩ st (fun x hx => mem_mRange maxR x hx) (Or.inl rfl) hloop with
                  hzero | hgood
                · rw [hzero] at hfin
                  exact absurd hfin.1 (by simp; omega)
                · obtain ⟨g1, g2, g3, g4⟩ := hgood
                  subst hT hM hMax
                  exact ⟨g1, le_trans g2 le_rfl, g3, g4⟩

/-- Claim C7 counterexample: `getMaxPods` falls back to the current replica
count, which can be 0 for a scaled-down workload; the no-op recommendation
then is `{min = 0, max = 0}`, violating the claimed invariant `1 ≤ min`. -/
theorem Recommend_invariant_counterexample :
    getMaxPods (Except.error () : Except Unit ℤ) (Except.ok []) (Except.ok 0) = .ok 0 ∧
    Recommend (4/5) 3600 60 10 60 50 (Except.ok [] : Except Unit (List DataPoint))
        (Except.ok 0) [] (Except.ok 0) (Except.ok 1) = .ok ⟨0, 0, 10⟩ ∧
    ¬ (1 ≤ (⟨0, 0, 10⟩ : HPAConfiguration).Min) := by
  refine ⟨?_, ?_, ?_⟩
  · rfl
  · with_unfolding_all decide
  · with_unfolding_all decide

/-- Claim C7 witness: the insufficient-data no-op at cap 5 satisfies the
invariant bounds. -/
theorem Recommend_invariant_of_bounds_witness :
    1 ≤ (⟨5, 5, 10⟩ : HPAConfiguration).Min ∧
      (⟨5, 5, 10⟩ : HPAConfiguration).Min ≤ (⟨5, 5, 10⟩ : HPAConfiguration).Max ∧
      10 ≤ (⟨5, 5, 10⟩ : HPAConfiguration).TargetMetricValue ∧
      (⟨5, 5, 10⟩ : HPAConfiguration).TargetMetricValue ≤ 60 :=
  Recommend_invariant_of_bounds Unit 1 3600 60 10 60 50 (Except.ok []) (Except.ok 5) []
    (Except.ok 0) (Except.ok 1) [] 5 ⟨5, 5, 10⟩ rfl rfl (by omega) (by omega) (by omega)
    (by with_unfolding_all decide)
